import Mathlib

/-!
Shallow embedding of the HiddenMarkovModel repository
(src/HiddenMarkovModel.hpp, src/HiddenMarkovModel.cpp).

Probabilities (C++ double) are modelled as exact rationals.  The
std::map string-keyed tables are modelled as functions String → Option
into values; map::find miss is Option.none, and a C++ throw of
runtime_error(msg) is Except.error msg.  File parsing (parseObsFile and
the textual part of the constructor) is the external collaborator per
the design document; the embedding takes the already-split tables and
observation lists as arguments.
-/

/-- Assignment m[k] = v on a string-keyed map. -/
def mapAssign {β : Type} (m : String → Option β) (k : String) (v : β) :
    String → Option β :=
  fun x => if x = k then some v else m x

/-- Inner loop of the constructor (e.g. lines 151-154):
int col = 0; for j in keys: acc[j] = vals[col++].
Out-of-range vals[col] is vector UB in the source; modelled as 0, and
every theorem below only uses dimension-consistent tables. -/
def loadRowAux (vals : List ℚ) : (String → Option ℚ) → Nat → List String →
    (String → Option ℚ)
  | acc, _, [] => acc
  | acc, col, k :: ks => loadRowAux vals (mapAssign acc k (vals.getD col 0)) (col + 1) ks

/-- One matrix row / one probability vector, filled from vals over keys. -/
def loadRow (start : String → Option ℚ) (keys : List String) (vals : List ℚ) :
    String → Option ℚ :=
  loadRowAux vals start 0 keys

/-- Outer loop of the constructor (lines 147-155 and 161-169): one text
line (row idx of rows) is consumed per row key, and the row map is
filled over colKeys; outer[i] starts empty on first access, as
std::map operator[] value-initialises. -/
def loadTableAux (colKeys : List String) (rows : List (List ℚ)) :
    (String → Option (String → Option ℚ)) → Nat → List String →
    (String → Option (String → Option ℚ))
  | acc, _, [] => acc
  | acc, idx, i :: is =>
    loadTableAux colKeys rows
      (mapAssign acc i (loadRow ((acc i).getD (fun _ => none)) colKeys (rows.getD idx [])))
      (idx + 1) is

/-- A transition or emission matrix as the nested string-keyed map the
constructor builds. -/
def loadTable (rowKeys colKeys : List String) (rows : List (List ℚ)) :
    String → Option (String → Option ℚ) :=
  loadTableAux colKeys rows (fun _ => none) 0 rowKeys

/-- The in-memory HMM: the private fields of class HiddenMarkovModel. -/
structure HiddenMarkovModel where
  numOfStates : Nat
  numOfOutputs : Nat
  stateNames : List String
  transitions : String → Option (String → Option ℚ)
  emissions : String → Option (String → Option ℚ)
  initStates : String → Option ℚ

/-- The constructor HiddenMarkovModel::HiddenMarkovModel (lines 110-182),
taking the already-parsed file contents: state names, output names, the
N transition rows, the N emission rows and the initial row.  The source
performs no validation of row sums, value ranges or dimensions. -/
def hmmFromTables (stateNames outputNames : List String)
    (transRows emisRows : List (List ℚ)) (initRow : List ℚ) : HiddenMarkovModel :=
  { numOfStates := stateNames.length
    numOfOutputs := outputNames.length
    stateNames := stateNames
    transitions := loadTable stateNames stateNames transRows
    emissions := loadTable stateNames outputNames emisRows
    initStates := loadRow (fun _ => none) stateNames initRow }

/-- HiddenMarkovModel::transition (lines 185-194): find-checked lookups,
throwing runtime_error on a missing key. -/
def HiddenMarkovModel.transition (m : HiddenMarkovModel) (stt1 stt2 : String) :
    Except String ℚ :=
  match m.transitions stt1 with
  | none => .error ("No such state: " ++ stt1)
  | some row =>
    match row stt2 with
    | none => .error ("No such state: " ++ stt2)
    | some v => .ok v

/-- HiddenMarkovModel::emission (lines 197-205). -/
def HiddenMarkovModel.emission (m : HiddenMarkovModel) (stt out : String) :
    Except String ℚ :=
  match m.emissions stt with
  | none => .error ("No such state: " ++ stt)
  | some row =>
    match row out with
    | none => .error ("No such output: " ++ out)
    | some v => .ok v

/-- HiddenMarkovModel::initState (lines 208-214).  The source checks
membership in _emissions (not _initStates) and then reads
_initStates[stt] through operator[], which value-initialises to 0 when
the key is absent: modelled by getD 0. -/
def HiddenMarkovModel.initState (m : HiddenMarkovModel) (stt : String) :
    Except String ℚ :=
  match m.emissions stt with
  | none => .error ("No such state: " ++ stt)
  | some _ => .ok ((m.initStates stt).getD 0)

/-- HiddenMarkovModel::initEval (lines 217-220):
initState(stt) * emission(stt, out). -/
def HiddenMarkovModel.initEval (m : HiddenMarkovModel) (out stt : String) :
    Except String ℚ := do
  let i ← m.initState stt
  let e ← m.emission stt out
  pure (i * e)

/-- HiddenMarkovModel::eval on one step (lines 223-226):
transition(stts[0], stts[1]) * emission(stts[1], out). -/
def HiddenMarkovModel.evalStep (m : HiddenMarkovModel) (out : String)
    (stt1 stt2 : String) : Except String ℚ := do
  let t ← m.transition stt1 stt2
  let e ← m.emission stt2 out
  pure (t * e)

/-- The while loop of HiddenMarkovModel::eval (lines 237-241): the
product of evalStep over consecutive (previous state, state) pairs. -/
def HiddenMarkovModel.evalChain (m : HiddenMarkovModel) :
    String → List String → List String → Except String ℚ
  | _, [], _ => pure 1
  | _, _, [] => pure 1
  | prev, o :: os, s :: ss => do
    let v ← m.evalStep o prev s
    let rest ← m.evalChain s os ss
    pure (v * rest)

/-- HiddenMarkovModel::eval on sequences (lines 229-244): returns 0
when the lengths differ, otherwise chains initEval and evalStep.  (On
two empty equal-length sequences the source dereferences a past-the-end
iterator, which is UB; that case is outside every claim and modelled as
the value 1 of the empty chain.) -/
def HiddenMarkovModel.eval (m : HiddenMarkovModel) (out stt : List String) :
    Except String ℚ :=
  if out.length ≠ stt.length then pure 0
  else
    match out, stt with
    | o :: os, s :: ss => do
      let r ← m.initEval o s
      let c ← m.evalChain s os ss
      pure (r * c)
    | _, _ => pure 1

/-- HiddenMarkovModel::forwardHelper (lines 248-261): the recursive
forward variable at time t for state curStt.  t = 0 is the base case;
at t+1 the source sums forwardHelper(obs, t, stt) * transition(stt,
curStt) over the state list and multiplies by emission(curStt,
obs[t+1]).  obs[t] is modelled by getD with default ""; every theorem
only evaluates it at in-range t, as the source execution does for
non-empty sequences. -/
def HiddenMarkovModel.forwardHelper (m : HiddenMarkovModel) (obs : List String) :
    Nat → String → Except String ℚ
  | 0, curStt => m.initEval (obs.getD 0 "") curStt
  | t + 1, curStt => do
    let sum ← m.stateNames.foldlM
      (fun acc stt => do
        let a ← m.forwardHelper obs t stt
        let tr ← m.transition stt curStt
        pure (acc + a * tr)) 0
    let e ← m.emission curStt (obs.getD (t + 1) "")
    pure (sum * e)

/-- The loop body of HiddenMarkovModel::forward for one observation
sequence (lines 272-277): the sum of forwardHelper(obs, obs.size()-1,
stt) over the state list. -/
def HiddenMarkovModel.forwardEval (m : HiddenMarkovModel) (obs : List String) :
    Except String ℚ :=
  m.stateNames.foldlM
    (fun acc stt => do
      let a ← m.forwardHelper obs (obs.length - 1) stt
      pure (acc + a)) 0

/-- HiddenMarkovModel::forward (lines 263-281) over the already-parsed
observation sequences: one ret.push_back per sequence; a C++ exception
from any sequence propagates out of the whole loop. -/
def HiddenMarkovModel.forward (m : HiddenMarkovModel)
    (observations : List (List String)) : Except String (List ℚ) :=
  observations.foldlM
    (fun ret obs => do
      let s ← m.forwardEval obs
      pure (ret ++ [s])) []

/-- HiddenMarkovModel::backwardHelper (lines 284-297), reindexed by the
number r of remaining steps: the source recursion is on the time index
t with base case t = obs.size()-1, and r = obs.length - 1 - t, so the
base r = 0 is the source t = obs.size()-1, and the source position
obs[t+1] at recursion depth r+1 is obs[obs.length - 1 - r]. -/
def HiddenMarkovModel.backwardHelperAux (m : HiddenMarkovModel) (obs : List String) :
    Nat → String → Except String ℚ
  | 0, _ => pure 1
  | r + 1, curStt =>
    m.stateNames.foldlM
      (fun acc stt => do
        let tr ← m.transition curStt stt
        let e ← m.emission stt (obs.getD (obs.length - 1 - r) "")
        let b ← m.backwardHelperAux obs r stt
        pure (acc + tr * e * b)) 0

/-- HiddenMarkovModel::backwardHelper at the source time index t. -/
def HiddenMarkovModel.backwardHelper (m : HiddenMarkovModel) (obs : List String)
    (t : Nat) (curStt : String) : Except String ℚ :=
  m.backwardHelperAux obs (obs.length - 1 - t) curStt

/-- The loop body of HiddenMarkovModel::backward for one observation
sequence (lines 308-313): the sum over states of
initState(stt) * emission(stt, obs[0]) * backwardHelper(obs, 0, stt). -/
def HiddenMarkovModel.backwardEval (m : HiddenMarkovModel) (obs : List String) :
    Except String ℚ :=
  m.stateNames.foldlM
    (fun acc stt => do
      let i ← m.initState stt
      let e ← m.emission stt (obs.getD 0 "")
      let b ← m.backwardHelper obs 0 stt
      pure (acc + i * e * b)) 0

/-- HiddenMarkovModel::backward (lines 299-317) over the already-parsed
observation sequences. -/
def HiddenMarkovModel.backward (m : HiddenMarkovModel)
    (observations : List (List String)) : Except String (List ℚ) :=
  observations.foldlM
    (fun ret obs => do
      let s ← m.backwardEval obs
      pure (ret ++ [s])) []

/-- The max-update of the loop body of HiddenMarkovModel::viterbiHelper
(lines 334-338): replace (maxProb, maxStt) when curr is strictly
greater, so on an exact tie the earlier state in iteration order is
kept, and a run of all-zero candidates never replaces the initial
(0, ""). -/
def viterbiStep (acc : ℚ × String) (stt : String) (curr : ℚ) : ℚ × String :=
  if curr > acc.1 then (curr, stt) else acc

/-- The selection the viterbiHelper loop performs over a list of
(state, candidate value) pairs, starting from maxProb = 0 and an empty
maxStt. -/
def selectMax (l : List (String × ℚ)) : ℚ × String :=
  l.foldl (fun acc p => viterbiStep acc p.1 p.2) (0, "")

/-- HiddenMarkovModel::viterbiHelper (lines 321-345).  The source
mutates the by-reference path vector; the embedding threads it:  the
recursive call for each state appends to the same path, and after the
loop the selected maxStt is pushed back unless it is still the empty
string. -/
def HiddenMarkovModel.viterbiHelper (m : HiddenMarkovModel) (obs : List String) :
    Nat → String → List String → Except String (ℚ × List String)
  | 0, curStt, path => do
    let v ← m.initEval (obs.getD 0 "") curStt
    pure (v, path)
  | t + 1, curStt, path => do
    let st ← m.stateNames.foldlM
      (fun (st : (ℚ × String) × List String) stt => do
        let pr ← m.viterbiHelper obs t stt st.2
        let tr ← m.transition stt curStt
        pure (viterbiStep st.1 stt (pr.1 * tr), pr.2)) ((0, ""), path)
    let path1 := if st.1.2 ≠ "" then st.2 ++ [st.1.2] else st.2
    let e ← m.emission curStt (obs.getD (t + 1) "")
    pure (st.1.1 * e, path1)

/-- The loop body of HiddenMarkovModel::viterbi for one observation
sequence (lines 355-364): curPath starts empty, viterbiHelper is called
once per state at t = obs.size()-1 with its return value discarded, and
the accumulated curPath is the result. -/
def HiddenMarkovModel.viterbiPath (m : HiddenMarkovModel) (obs : List String) :
    Except String (List String) :=
  m.stateNames.foldlM
    (fun curPath stt => do
      let pr ← m.viterbiHelper obs (obs.length - 1) stt curPath
      pure pr.2) []

/-- HiddenMarkovModel::viterbi (lines 348-368) over the already-parsed
observation sequences. -/
def HiddenMarkovModel.viterbi (m : HiddenMarkovModel)
    (observations : List (List String)) : Except String (List (List String)) :=
  observations.foldlM
    (fun ret obs => do
      let p ← m.viterbiPath obs
      pure (ret ++ [p])) []

/-!
Fuelled model of forward on an empty observation sequence.  In the
source, forward passes obs.size()-1 to the int parameter t of
forwardHelper; for an empty vector this is SIZE_MAX converted to int,
i.e. -1 on the usual platforms, and the recursion t → t-1 then never
reaches the base case t == 0: the call never returns.  The fuelled
embedding makes the time index an Int and returns none when the fuel
runs out before the recursion completes, so non-termination shows up as
"none for every fuel". -/

/-- Sequence two fuelled/fallible computations. -/
def fuelBind (a : Option (Except String ℚ)) (f : ℚ → Option (Except String ℚ)) :
    Option (Except String ℚ) :=
  match a with
  | none => none
  | some (.error e) => some (.error e)
  | some (.ok v) => f v

/-- forwardHelper with the source int time index and explicit fuel. -/
def HiddenMarkovModel.forwardHelperFuel (m : HiddenMarkovModel) (obs : List String) :
    Nat → Int → String → Option (Except String ℚ)
  | 0, _, _ => none
  | fuel + 1, t, curStt =>
    if t = 0 then some (m.initEval (obs.getD 0 "") curStt)
    else
      fuelBind
        (m.stateNames.foldl
          (fun acc stt =>
            fuelBind acc (fun s =>
              fuelBind (m.forwardHelperFuel obs fuel (t - 1) stt) (fun a =>
                match m.transition stt curStt with
                | .error e => some (.error e)
                | .ok tr => some (.ok (s + a * tr)))))
          (some (.ok 0)))
        (fun sum =>
          match m.emission curStt (obs.getD (t.toNat + 1) "") with
          | .error e => some (.error e)
          | .ok e => some (.ok (sum * e)))

/-- The loop body of forward for one observation sequence, fuelled,
with the source t = (int)(obs.size() - 1), which is (obs.length : Int)
- 1 and hence -1 on an empty sequence. -/
def HiddenMarkovModel.forwardEvalFuel (m : HiddenMarkovModel) (obs : List String)
    (fuel : Nat) : Option (Except String ℚ) :=
  m.stateNames.foldl
    (fun acc stt =>
      fuelBind acc (fun s =>
        fuelBind (m.forwardHelperFuel obs fuel ((obs.length : Int) - 1) stt)
          (fun a => some (.ok (s + a)))))
    (some (.ok 0))

/-- True exactly when the computation returned a value rather than
throwing. -/
def exceptOk {α : Type} (e : Except String α) : Bool :=
  match e with
  | .ok _ => true
  | .error _ => false

instance {E α : Type} [DecidableEq E] [DecidableEq α] : DecidableEq (Except E α) :=
  fun a b =>
    match a, b with
    | .ok x, .ok y =>
      if h : x = y then .isTrue (by rw [h]) else .isFalse (fun hc => h (by injection hc))
    | .ok _, .error _ => .isFalse (fun hc => by injection hc)
    | .error _, .ok _ => .isFalse (fun hc => by injection hc)
    | .error e1, .error e2 =>
      if h : e1 = e2 then .isTrue (by rw [h]) else .isFalse (fun hc => h (by injection hc))

/-!
Concrete models.  fixtureM is the regression fixture of the design
document: states S0, S1; symbols A, B; transition [[0.7,0.3],[0.4,0.6]];
emission [[0.9,0.1],[0.2,0.8]]; initial [0.6,0.4].  zeroFixtureM gives
both states emission probability 0 on symbol A, so every Viterbi
candidate at the first step is 0.  badTablesM has a transition row
summing to 0.5, a transition probability 3/2 outside [0,1], another of
-1/2, and an initial vector summing to 0.6. -/

def fixtureM : HiddenMarkovModel :=
  hmmFromTables ["S0", "S1"] ["A", "B"]
    [[7/10, 3/10], [4/10, 6/10]] [[9/10, 1/10], [2/10, 8/10]] [6/10, 4/10]

def zeroFixtureM : HiddenMarkovModel :=
  hmmFromTables ["s0", "s1"] ["A", "B"]
    [[7/10, 3/10], [4/10, 6/10]] [[0, 1], [0, 1]] [6/10, 4/10]

def badTablesM : HiddenMarkovModel :=
  hmmFromTables ["s0", "s1"] ["A", "B"]
    [[2/10, 3/10], [15/10, -5/10]] [[1/2, 1/2], [1/2, 1/2]] [3/10, 3/10]

/-!
The design document's recurrences, written over total probability
functions ini, tr, em: alphaSpec is
  alpha(0, i)   = initial[i] * emission[i, obs[0]],
  alpha(t, i)   = emission[i, obs[t]] * sum over j of
                  alpha(t-1, j) * transition[j, i],
and betaSpec, indexed by the number r of steps remaining to the end
(the source time index t is obs.length - 1 - r), is
  beta(0, i)    = 1                                (t = T-1),
  beta(r+1, i)  = sum over j of transition[i, j]
                  * emission[j, obs[T-1-r]] * beta(r, j). -/

def alphaSpec (ini : String → ℚ) (tr em : String → String → ℚ)
    (states obs : List String) : Nat → String → ℚ
  | 0, i => ini i * em i (obs.getD 0 "")
  | t + 1, i =>
    em i (obs.getD (t + 1) "")
      * (states.map fun j => alphaSpec ini tr em states obs t j * tr j i).sum

def betaSpec (tr em : String → String → ℚ) (states obs : List String) :
    Nat → String → ℚ
  | 0, _ => 1
  | r + 1, i =>
    (states.map fun j =>
      tr i j * em j (obs.getD (obs.length - 1 - r) "")
        * betaSpec tr em states obs r j).sum


/-- The total lookup functions of the regression fixture. -/
def iniF : String → ℚ := fun s => if s = "S0" then 6/10 else 4/10

def trF : String → String → ℚ := fun s1 s2 =>
  if s1 = "S0" then (if s2 = "S0" then 7/10 else 3/10)
  else (if s2 = "S0" then 4/10 else 6/10)

def emF : String → String → ℚ := fun s o =>
  if s = "S0" then (if o = "A" then 9/10 else 1/10)
  else (if o = "A" then 2/10 else 8/10)


/-!
General helper lemmas on folds over Except and on list sums.
-/

theorem ok_bind {α β : Type} (v : α) (f : α → Except String β) :
    (Except.ok v >>= f : Except String β) = f v := rfl

/-- A monadic fold over Except computes the plain fold when every step
succeeds. -/
theorem foldlM_except_ok {α β : Type} (l : List α) (f : β → α → Except String β)
    (g : β → α → β) (h : ∀ acc : β, ∀ x ∈ l, f acc x = .ok (g acc x)) :
    ∀ c : β, l.foldlM f c = .ok (l.foldl g c) := by
  induction l with
  | nil => intro c; rfl
  | cons x xs ih =>
    intro c
    have hx : f c x = .ok (g c x) := h c x (by simp)
    have hrest : ∀ acc : β, ∀ y ∈ xs, f acc y = .ok (g acc y) := by
      intro acc y hy; exact h acc y (by simp [hy])
    simp only [List.foldlM, hx, ok_bind]
    simpa using ih hrest (g c x)

/-- Accumulating additions in a fold is the sum of the mapped list. -/
theorem foldl_add_map_sum {α : Type} (l : List α) (g : α → ℚ) :
    ∀ c : ℚ, l.foldl (fun acc x => acc + g x) c = c + (l.map g).sum := by
  induction l with
  | nil => intro c; simp
  | cons x xs ih => intro c; simp [ih (c + g x), add_assoc]

/-- Interchange of two list sums. -/
theorem list_sum_comm {α β : Type} (l : List α) (r : List β) (f : α → β → ℚ) :
    (l.map fun i => (r.map fun j => f i j).sum).sum
      = (r.map fun j => (l.map fun i => f i j).sum).sum := by
  induction l with
  | nil => simp
  | cons x xs ih => simp [ih, List.sum_map_add]

/-!
Lemmas about the constructor's map building.
-/

theorem loadRowAux_notMem (vals : List ℚ) :
    ∀ (keys : List String) (acc : String → Option ℚ) (col : Nat) (x : String),
      x ∉ keys → loadRowAux vals acc col keys x = acc x := by
  intro keys
  induction keys with
  | nil => intro acc col x _; rfl
  | cons k ks ih =>
    intro acc col x hx
    have hxk : x ≠ k := by intro h; exact hx (by simp [h])
    have hxs : x ∉ ks := by intro h; exact hx (by simp [h])
    show loadRowAux vals (mapAssign acc k (vals.getD col 0)) (col + 1) ks x = acc x
    rw [ih _ _ _ hxs]
    simp [mapAssign, hxk]

theorem loadRowAux_get (vals : List ℚ) :
    ∀ (keys : List String), keys.Nodup →
      ∀ (i : Nat) (hi : i < keys.length) (acc : String → Option ℚ) (col : Nat),
        loadRowAux vals acc col keys (keys.get ⟨i, hi⟩) = some (vals.getD (col + i) 0) := by
  intro keys
  induction keys with
  | nil => intro _ i hi; simp at hi
  | cons k ks ih =>
    intro hnd i hi acc col
    rcases List.nodup_cons.mp hnd with ⟨hk, hks⟩
    match i with
    | 0 =>
      show loadRowAux vals (mapAssign acc k (vals.getD col 0)) (col + 1) ks k
          = some (vals.getD (col + 0) 0)
      rw [loadRowAux_notMem vals ks _ _ _ hk]
      simp [mapAssign]
    | j + 1 =>
      have hj : j < ks.length := by simp at hi; omega
      show loadRowAux vals (mapAssign acc k (vals.getD col 0)) (col + 1) ks (ks.get ⟨j, hj⟩)
          = some (vals.getD (col + (j + 1)) 0)
      have hcol : col + (j + 1) = col + 1 + j := by omega
      rw [hcol]
      exact ih hks j hj _ (col + 1)

theorem loadRowAux_mem (vals : List ℚ) :
    ∀ (keys : List String) (acc : String → Option ℚ) (col : Nat) (x : String),
      x ∈ keys → ∃ v, loadRowAux vals acc col keys x = some v := by
  intro keys
  induction keys with
  | nil => intro _ _ x hx; simp at hx
  | cons k ks ih =>
    intro acc col x hx
    by_cases hxs : x ∈ ks
    · exact ih _ _ _ hxs
    · have hxk : x = k := by
        rcases List.mem_cons.mp hx with h | h
        · exact h
        · exact absurd h hxs
      refine ⟨vals.getD col 0, ?_⟩
      show loadRowAux vals (mapAssign acc k (vals.getD col 0)) (col + 1) ks x
          = some (vals.getD col 0)
      rw [loadRowAux_notMem vals ks _ _ _ hxs]
      simp [mapAssign, hxk]

theorem loadTableAux_notMem (colKeys : List String) (rows : List (List ℚ)) :
    ∀ (keys : List String) (acc : String → Option (String → Option ℚ)) (idx : Nat)
      (x : String), x ∉ keys → loadTableAux colKeys rows acc idx keys x = acc x := by
  intro keys
  induction keys with
  | nil => intro acc idx x _; rfl
  | cons k ks ih =>
    intro acc idx x hx
    have hxk : x ≠ k := by intro h; exact hx (by simp [h])
    have hxs : x ∉ ks := by intro h; exact hx (by simp [h])
    show loadTableAux colKeys rows
        (mapAssign acc k (loadRow ((acc k).getD (fun _ => none)) colKeys (rows.getD idx [])))
        (idx + 1) ks x = acc x
    rw [ih _ _ _ hxs]
    simp [mapAssign, hxk]

theorem loadTableAux_get (colKeys : List String) (rows : List (List ℚ)) :
    ∀ (keys : List String), keys.Nodup →
      ∀ (i : Nat) (hi : i < keys.length) (acc : String → Option (String → Option ℚ))
        (idx : Nat), (∀ y ∈ keys, acc y = none) →
        loadTableAux colKeys rows acc idx keys (keys.get ⟨i, hi⟩)
          = some (loadRow (fun _ => none) colKeys (rows.getD (idx + i) [])) := by
  intro keys
  induction keys with
  | nil => intro _ i hi; simp at hi
  | cons k ks ih =>
    intro hnd i hi acc idx hacc
    rcases List.nodup_cons.mp hnd with ⟨hk, hks⟩
    have hacck : acc k = none := hacc k (by simp)
    match i with
    | 0 =>
      show loadTableAux colKeys rows
          (mapAssign acc k (loadRow ((acc k).getD (fun _ => none)) colKeys (rows.getD idx [])))
          (idx + 1) ks k = some (loadRow (fun _ => none) colKeys (rows.getD (idx + 0) []))
      rw [loadTableAux_notMem colKeys rows ks _ _ _ hk]
      simp [mapAssign, hacck]
    | j + 1 =>
      have hj : j < ks.length := by simp at hi; omega
      have hacc2 : ∀ y ∈ ks,
          (mapAssign acc k (loadRow ((acc k).getD (fun _ => none)) colKeys
            (rows.getD idx []))) y = none := by
        intro y hy
        have hyk : y ≠ k := by intro h; exact hk (h ▸ hy)
        simp [mapAssign, hyk]
        exact hacc y (by simp [hy])
      show loadTableAux colKeys rows
          (mapAssign acc k (loadRow ((acc k).getD (fun _ => none)) colKeys (rows.getD idx [])))
          (idx + 1) ks (ks.get ⟨j, hj⟩)
          = some (loadRow (fun _ => none) colKeys (rows.getD (idx + (j + 1)) []))
      have hidx : idx + (j + 1) = idx + 1 + j := by omega
      rw [hidx]
      exact ih hks j hj _ (idx + 1) hacc2

/-!
Lookup behaviour on a constructed model.
-/

theorem ctor_transitions_get (names outs : List String) (tR eR : List (List ℚ))
    (iR : List ℚ) (hn : names.Nodup) (i : Nat) (hi : i < names.length) :
    (hmmFromTables names outs tR eR iR).transitions (names.get ⟨i, hi⟩)
      = some (loadRow (fun _ => none) names (tR.getD i [])) := by
  show loadTableAux names tR (fun _ => none) 0 names (names.get ⟨i, hi⟩) = _
  rw [loadTableAux_get names tR names hn i hi (fun _ => none) 0 (fun y _ => rfl)]
  simp

theorem ctor_transitions_notMem (names outs : List String) (tR eR : List (List ℚ))
    (iR : List ℚ) (x : String) (hx : x ∉ names) :
    (hmmFromTables names outs tR eR iR).transitions x = none := by
  show loadTableAux names tR (fun _ => none) 0 names x = _
  rw [loadTableAux_notMem names tR names (fun _ => none) 0 x hx]

theorem ctor_emissions_get (names outs : List String) (tR eR : List (List ℚ))
    (iR : List ℚ) (hn : names.Nodup) (i : Nat) (hi : i < names.length) :
    (hmmFromTables names outs tR eR iR).emissions (names.get ⟨i, hi⟩)
      = some (loadRow (fun _ => none) outs (eR.getD i [])) := by
  show loadTableAux outs eR (fun _ => none) 0 names (names.get ⟨i, hi⟩) = _
  rw [loadTableAux_get outs eR names hn i hi (fun _ => none) 0 (fun y _ => rfl)]
  simp

theorem ctor_emissions_notMem (names outs : List String) (tR eR : List (List ℚ))
    (iR : List ℚ) (x : String) (hx : x ∉ names) :
    (hmmFromTables names outs tR eR iR).emissions x = none := by
  show loadTableAux outs eR (fun _ => none) 0 names x = _
  rw [loadTableAux_notMem outs eR names (fun _ => none) 0 x hx]

theorem ctor_initStates_get (names outs : List String) (tR eR : List (List ℚ))
    (iR : List ℚ) (hn : names.Nodup) (i : Nat) (hi : i < names.length) :
    (hmmFromTables names outs tR eR iR).initStates (names.get ⟨i, hi⟩)
      = some (iR.getD i 0) := by
  show loadRowAux iR (fun _ => none) 0 names (names.get ⟨i, hi⟩) = _
  rw [loadRowAux_get iR names hn i hi (fun _ => none) 0]
  simp

theorem ctor_transition_ok (names outs : List String) (tR eR : List (List ℚ))
    (iR : List ℚ) (hn : names.Nodup) (i j : Nat) (hi : i < names.length)
    (hj : j < names.length) :
    (hmmFromTables names outs tR eR iR).transition (names.get ⟨i, hi⟩) (names.get ⟨j, hj⟩)
      = .ok ((tR.getD i []).getD j 0) := by
  have h1 := ctor_transitions_get names outs tR eR iR hn i hi
  have h2 : loadRow (fun _ => none) names (tR.getD i []) (names.get ⟨j, hj⟩)
      = some ((tR.getD i []).getD j 0) := by
    show loadRowAux (tR.getD i []) (fun _ => none) 0 names (names.get ⟨j, hj⟩) = _
    rw [loadRowAux_get (tR.getD i []) names hn j hj (fun _ => none) 0]
    simp
  simp only [HiddenMarkovModel.transition, h1, h2]

theorem ctor_emission_ok (names outs : List String) (tR eR : List (List ℚ))
    (iR : List ℚ) (hn : names.Nodup) (ho : outs.Nodup) (i k : Nat)
    (hi : i < names.length) (hk : k < outs.length) :
    (hmmFromTables names outs tR eR iR).emission (names.get ⟨i, hi⟩) (outs.get ⟨k, hk⟩)
      = .ok ((eR.getD i []).getD k 0) := by
  have h1 := ctor_emissions_get names outs tR eR iR hn i hi
  have h2 : loadRow (fun _ => none) outs (eR.getD i []) (outs.get ⟨k, hk⟩)
      = some ((eR.getD i []).getD k 0) := by
    show loadRowAux (eR.getD i []) (fun _ => none) 0 outs (outs.get ⟨k, hk⟩) = _
    rw [loadRowAux_get (eR.getD i []) outs ho k hk (fun _ => none) 0]
    simp
  simp only [HiddenMarkovModel.emission, h1, h2]

theorem ctor_initState_ok (names outs : List String) (tR eR : List (List ℚ))
    (iR : List ℚ) (hn : names.Nodup) (i : Nat) (hi : i < names.length) :
    (hmmFromTables names outs tR eR iR).initState (names.get ⟨i, hi⟩)
      = .ok (iR.getD i 0) := by
  have h1 := ctor_emissions_get names outs tR eR iR hn i hi
  have h2 := ctor_initStates_get names outs tR eR iR hn i hi
  simp only [HiddenMarkovModel.initState, h1, h2, Option.getD_some]

theorem ctor_transition_isOk_iff (names outs : List String) (tR eR : List (List ℚ))
    (iR : List ℚ) (hn : names.Nodup) (s1 s2 : String) :
    exceptOk ((hmmFromTables names outs tR eR iR).transition s1 s2) = true
      ↔ (s1 ∈ names ∧ s2 ∈ names) := by
  by_cases h1 : s1 ∈ names
  · rcases List.mem_iff_get.mp h1 with ⟨n, hn1⟩
    have ht : (hmmFromTables names outs tR eR iR).transitions s1
        = some (loadRow (fun _ => none) names (tR.getD n.1 [])) := by
      rw [← hn1]
      exact ctor_transitions_get names outs tR eR iR hn n.1 n.2
    by_cases h2 : s2 ∈ names
    · rcases loadRowAux_mem (tR.getD n.1 []) names (fun _ => none) 0 s2 h2 with ⟨v, hv⟩
      simp only [HiddenMarkovModel.transition, ht]
      rw [show loadRow (fun _ => none) names (tR.getD n.1 []) s2 = some v from hv]
      simp [exceptOk, h1, h2]
    · have hv : loadRow (fun _ => none) names (tR.getD n.1 []) s2 = none :=
        loadRowAux_notMem (tR.getD n.1 []) names (fun _ => none) 0 s2 h2
      simp only [HiddenMarkovModel.transition, ht, hv]
      simp [exceptOk, h2]
  · have ht := ctor_transitions_notMem names outs tR eR iR s1 h1
    simp only [HiddenMarkovModel.transition, ht]
    simp [exceptOk, h1]

theorem ctor_emission_isOk_iff (names outs : List String) (tR eR : List (List ℚ))
    (iR : List ℚ) (hn : names.Nodup) (s o : String) :
    exceptOk ((hmmFromTables names outs tR eR iR).emission s o) = true
      ↔ (s ∈ names ∧ o ∈ outs) := by
  by_cases h1 : s ∈ names
  · rcases List.mem_iff_get.mp h1 with ⟨n, hn1⟩
    have ht : (hmmFromTables names outs tR eR iR).emissions s
        = some (loadRow (fun _ => none) outs (eR.getD n.1 [])) := by
      rw [← hn1]
      exact ctor_emissions_get names outs tR eR iR hn n.1 n.2
    by_cases h2 : o ∈ outs
    · rcases loadRowAux_mem (eR.getD n.1 []) outs (fun _ => none) 0 o h2 with ⟨v, hv⟩
      simp only [HiddenMarkovModel.emission, ht]
      rw [show loadRow (fun _ => none) outs (eR.getD n.1 []) o = some v from hv]
      simp [exceptOk, h1, h2]
    · have hv : loadRow (fun _ => none) outs (eR.getD n.1 []) o = none :=
        loadRowAux_notMem (eR.getD n.1 []) outs (fun _ => none) 0 o h2
      simp only [HiddenMarkovModel.emission, ht, hv]
      simp [exceptOk, h2]
  · have ht := ctor_emissions_notMem names outs tR eR iR s h1
    simp only [HiddenMarkovModel.emission, ht]
    simp [exceptOk, h1]

theorem ctor_initState_isOk_iff (names outs : List String) (tR eR : List (List ℚ))
    (iR : List ℚ) (hn : names.Nodup) (s : String) :
    exceptOk ((hmmFromTables names outs tR eR iR).initState s) = true ↔ s ∈ names := by
  by_cases h1 : s ∈ names
  · rcases List.mem_iff_get.mp h1 with ⟨n, hn1⟩
    have ht : (hmmFromTables names outs tR eR iR).emissions s
        = some (loadRow (fun _ => none) outs (eR.getD n.1 [])) := by
      rw [← hn1]
      exact ctor_emissions_get names outs tR eR iR hn n.1 n.2
    simp only [HiddenMarkovModel.initState, ht]
    simp [exceptOk, h1]
  · have ht := ctor_emissions_notMem names outs tR eR iR s h1
    simp only [HiddenMarkovModel.initState, ht]
    simp [exceptOk, h1]

/-- forwardHelper computes exactly the spec recurrence when every
lookup it performs succeeds. -/
theorem forwardHelper_ok (m : HiddenMarkovModel) (obs : List String)
    (ini : String → ℚ) (tr em : String → String → ℚ)
    (hI : ∀ s ∈ m.stateNames, m.initState s = .ok (ini s))
    (hT : ∀ s ∈ m.stateNames, ∀ s2 ∈ m.stateNames, m.transition s s2 = .ok (tr s s2))
    (hE : ∀ s ∈ m.stateNames, ∀ t < obs.length,
      m.emission s (obs.getD t "") = .ok (em s (obs.getD t ""))) :
    ∀ t < obs.length, ∀ s ∈ m.stateNames,
      m.forwardHelper obs t s = .ok (alphaSpec ini tr em m.stateNames obs t s) := by
  intro t
  induction t with
  | zero =>
    intro ht s hs
    show m.initEval (obs.getD 0 "") s = _
    rw [HiddenMarkovModel.initEval, hI s hs, ok_bind, hE s hs 0 ht, ok_bind]
    rfl
  | succ t ih =>
    intro ht s hs
    have ht2 : t < obs.length := by omega
    show (do
        let sum ← m.stateNames.foldlM
          (fun acc stt => do
            let a ← m.forwardHelper obs t stt
            let tr2 ← m.transition stt s
            pure (acc + a * tr2)) 0
        let e ← m.emission s (obs.getD (t + 1) "")
        pure (sum * e)) = _
    rw [foldlM_except_ok m.stateNames _
      (fun acc stt => acc + alphaSpec ini tr em m.stateNames obs t stt * tr stt s)
      (by
        intro acc x hx
        rw [ih ht2 x hx, ok_bind, hT x hx s hs, ok_bind]
        rfl) 0]
    rw [ok_bind, hE s hs (t + 1) ht, ok_bind]
    rw [foldl_add_map_sum m.stateNames _ 0, zero_add]
    show Except.ok _ = Except.ok (alphaSpec ini tr em m.stateNames obs (t + 1) s)
    rw [alphaSpec]
    rw [mul_comm]

/-- The forward loop body returns the sum of the spec recurrence over
all states at the last time step. -/
theorem forwardEval_eq_alpha (m : HiddenMarkovModel) (obs : List String)
    (ini : String → ℚ) (tr em : String → String → ℚ) (hne : obs ≠ [])
    (hI : ∀ s ∈ m.stateNames, m.initState s = .ok (ini s))
    (hT : ∀ s ∈ m.stateNames, ∀ s2 ∈ m.stateNames, m.transition s s2 = .ok (tr s s2))
    (hE : ∀ s ∈ m.stateNames, ∀ t < obs.length,
      m.emission s (obs.getD t "") = .ok (em s (obs.getD t ""))) :
    m.forwardEval obs
      = .ok ((m.stateNames.map fun i =>
          alphaSpec ini tr em m.stateNames obs (obs.length - 1) i).sum) := by
  have hlen : obs.length - 1 < obs.length := by
    have : obs.length ≠ 0 := fun h => hne (List.length_eq_zero.mp h)
    omega
  unfold HiddenMarkovModel.forwardEval
  rw [foldlM_except_ok m.stateNames _
    (fun acc stt => acc + alphaSpec ini tr em m.stateNames obs (obs.length - 1) stt)
    (by
      intro acc x hx
      rw [forwardHelper_ok m obs ini tr em hI hT hE (obs.length - 1) hlen x hx, ok_bind]
      rfl) (0 : ℚ)]
  rw [foldl_add_map_sum m.stateNames _ 0, zero_add]

theorem map_sum_congr {α : Type} (l : List α) (f g : α → ℚ)
    (h : ∀ x ∈ l, f x = g x) : (l.map f).sum = (l.map g).sum := by
  rw [List.map_congr_left h]

/-- backwardHelper computes exactly the backward recurrence when every
lookup it performs succeeds. -/
theorem backwardHelperAux_ok (m : HiddenMarkovModel) (obs : List String)
    (tr em : String → String → ℚ)
    (hT : ∀ s ∈ m.stateNames, ∀ s2 ∈ m.stateNames, m.transition s s2 = .ok (tr s s2))
    (hE : ∀ s ∈ m.stateNames, ∀ t < obs.length,
      m.emission s (obs.getD t "") = .ok (em s (obs.getD t ""))) :
    ∀ r, r ≤ obs.length - 1 → ∀ s ∈ m.stateNames,
      m.backwardHelperAux obs r s = .ok (betaSpec tr em m.stateNames obs r s) := by
  intro r
  induction r with
  | zero => intro _ s _; rfl
  | succ r ih =>
    intro hr s hs
    have hpos : obs.length - 1 - r < obs.length := by omega
    have hr2 : r ≤ obs.length - 1 := by omega
    simp only [HiddenMarkovModel.backwardHelperAux]
    rw [foldlM_except_ok m.stateNames _
      (fun acc stt =>
        acc + tr s stt * em stt (obs.getD (obs.length - 1 - r) "")
          * betaSpec tr em m.stateNames obs r stt)
      (by
        intro acc x hx
        rw [hT s hs x hx, ok_bind, hE x hx _ hpos, ok_bind, ih hr2 x hx, ok_bind]
        rfl) (0 : ℚ)]
    rw [foldl_add_map_sum m.stateNames _ 0, zero_add]
    rfl

/-- The backward loop body returns the initial-weighted sum of the
backward recurrence at time 0. -/
theorem backwardEval_eq_beta (m : HiddenMarkovModel) (obs : List String)
    (ini : String → ℚ) (tr em : String → String → ℚ) (hne : obs ≠ [])
    (hI : ∀ s ∈ m.stateNames, m.initState s = .ok (ini s))
    (hT : ∀ s ∈ m.stateNames, ∀ s2 ∈ m.stateNames, m.transition s s2 = .ok (tr s s2))
    (hE : ∀ s ∈ m.stateNames, ∀ t < obs.length,
      m.emission s (obs.getD t "") = .ok (em s (obs.getD t ""))) :
    m.backwardEval obs
      = .ok ((m.stateNames.map fun i =>
          ini i * em i (obs.getD 0 "")
            * betaSpec tr em m.stateNames obs (obs.length - 1) i).sum) := by
  have h0 : 0 < obs.length := by
    have : obs.length ≠ 0 := fun h => hne (List.length_eq_zero.mp h)
    omega
  unfold HiddenMarkovModel.backwardEval
  rw [foldlM_except_ok m.stateNames _
    (fun acc stt =>
      acc + ini stt * em stt (obs.getD 0 "")
        * betaSpec tr em m.stateNames obs (obs.length - 1) stt)
    (by
      intro acc x hx
      rw [hI x hx, ok_bind, hE x hx 0 h0, ok_bind]
      show (m.backwardHelperAux obs (obs.length - 1 - 0) x >>= fun b =>
        pure (acc + ini x * em x (obs.getD 0 "") * b)) = _
      rw [Nat.sub_zero,
        backwardHelperAux_ok m obs tr em hT hE (obs.length - 1) (le_refl _) x hx, ok_bind]
      rfl) (0 : ℚ)]
  rw [foldl_add_map_sum m.stateNames _ 0, zero_add]

/-- The invariant behind forward/backward agreement: the alpha-beta
inner product is the same at every cut point r. -/
theorem alpha_beta_const (ini : String → ℚ) (tr em : String → String → ℚ)
    (states obs : List String) :
    ∀ r, r ≤ obs.length - 1 →
      (states.map fun i =>
        alphaSpec ini tr em states obs (obs.length - 1 - r) i
          * betaSpec tr em states obs r i).sum
      = (states.map fun i => alphaSpec ini tr em states obs (obs.length - 1) i).sum := by
  intro r
  induction r with
  | zero =>
    intro _
    simp [betaSpec]
  | succ r ih =>
    intro hr
    have hr2 : r ≤ obs.length - 1 := by omega
    have hsucc : obs.length - 1 - r = (obs.length - 1 - (r + 1)) + 1 := by omega
    rw [← ih hr2]
    rw [hsucc]
    rw [show (betaSpec tr em states obs (r + 1))
        = fun i => (states.map fun j =>
            tr i j * em j (obs.getD ((obs.length - 1 - (r + 1)) + 1) "")
              * betaSpec tr em states obs r j).sum from by
      funext i
      rw [betaSpec, ← hsucc]]
    rw [map_sum_congr states _
      (fun i => (states.map fun j =>
        alphaSpec ini tr em states obs (obs.length - 1 - (r + 1)) i
          * (tr i j * em j (obs.getD ((obs.length - 1 - (r + 1)) + 1) "")
            * betaSpec tr em states obs r j)).sum)
      (by
        intro i _
        exact (List.sum_map_mul_left states _ _).symm)]
    rw [list_sum_comm states states _]
    rw [map_sum_congr states _
      (fun j => alphaSpec ini tr em states obs ((obs.length - 1 - (r + 1)) + 1) j
        * betaSpec tr em states obs r j)
      (by
        intro j _
        rw [map_sum_congr states _
          (fun i => (alphaSpec ini tr em states obs (obs.length - 1 - (r + 1)) i
            * tr i j)
            * (em j (obs.getD ((obs.length - 1 - (r + 1)) + 1) "")
              * betaSpec tr em states obs r j))
          (by intro i _; ring)]
        rw [List.sum_map_mul_right states _ _]
        have halpha : alphaSpec ini tr em states obs ((obs.length - 1 - (r + 1)) + 1) j
            = em j (obs.getD ((obs.length - 1 - (r + 1)) + 1) "")
              * (states.map fun i =>
                  alphaSpec ini tr em states obs (obs.length - 1 - (r + 1)) i * tr i j).sum := by
          rw [alphaSpec.eq_def]
        show _ = alphaSpec ini tr em states obs ((obs.length - 1 - (r + 1)) + 1) j
          * betaSpec tr em states obs r j
        rw [halpha]
        ring)]

/-- Forward and backward loop bodies agree exactly whenever every
lookup they perform succeeds. -/
theorem forward_eq_backward_core (m : HiddenMarkovModel) (obs : List String)
    (ini : String → ℚ) (tr em : String → String → ℚ) (hne : obs ≠ [])
    (hI : ∀ s ∈ m.stateNames, m.initState s = .ok (ini s))
    (hT : ∀ s ∈ m.stateNames, ∀ s2 ∈ m.stateNames, m.transition s s2 = .ok (tr s s2))
    (hE : ∀ s ∈ m.stateNames, ∀ t < obs.length,
      m.emission s (obs.getD t "") = .ok (em s (obs.getD t ""))) :
    m.forwardEval obs = m.backwardEval obs := by
  rw [forwardEval_eq_alpha m obs ini tr em hne hI hT hE,
    backwardEval_eq_beta m obs ini tr em hne hI hT hE]
  have hinv := alpha_beta_const ini tr em m.stateNames obs (obs.length - 1) (le_refl _)
  rw [Nat.sub_self] at hinv
  congr 1
  rw [← hinv]
  exact map_sum_congr m.stateNames _ _ (fun i _ => rfl)

/-- Claim C1: for every model and every non-empty observation sequence
whose symbols are all in the model's symbol set (stated as: every
initial / transition / emission lookup the algorithm performs over the
model's states and the sequence's positions succeeds, with values given
by ini, tr, em), the forward evaluation returns the sum over all
states i of alpha(T-1, i), where alpha is exactly the spec's
recurrence (alphaSpec). -/
theorem claim_C1_forward_matches_spec (m : HiddenMarkovModel) (obs : List String)
    (ini : String → ℚ) (tr em : String → String → ℚ) (hne : obs ≠ [])
    (hI : ∀ s ∈ m.stateNames, m.initState s = .ok (ini s))
    (hT : ∀ s ∈ m.stateNames, ∀ s2 ∈ m.stateNames, m.transition s s2 = .ok (tr s s2))
    (hE : ∀ s ∈ m.stateNames, ∀ t < obs.length,
      m.emission s (obs.getD t "") = .ok (em s (obs.getD t ""))) :
    m.forwardEval obs
      = .ok ((m.stateNames.map fun i =>
          alphaSpec ini tr em m.stateNames obs (obs.length - 1) i).sum) :=
  forwardEval_eq_alpha m obs ini tr em hne hI hT hE

theorem err_bind {α β : Type} (e : String) (f : α → Except String β) :
    (Except.error e >>= f : Except String β) = Except.error e := rfl

theorem ok_map {α β : Type} (v : α) (f : α → β) :
    (f <$> Except.ok v : Except String β) = Except.ok (f v) := rfl

theorem fixture_hI : ∀ s ∈ fixtureM.stateNames, fixtureM.initState s = .ok (iniF s) := by
  intro s hs
  have hs2 : s = "S0" ∨ s = "S1" := by simpa [fixtureM, hmmFromTables] using hs
  rcases hs2 with h | h <;> subst h <;>
    norm_num +decide [fixtureM, hmmFromTables, HiddenMarkovModel.initState,
      loadTable, loadTableAux, loadRow, loadRowAux, mapAssign, iniF]

theorem fixture_hT : ∀ s ∈ fixtureM.stateNames, ∀ s2 ∈ fixtureM.stateNames,
    fixtureM.transition s s2 = .ok (trF s s2) := by
  intro s hs s2 hs2
  have h1 : s = "S0" ∨ s = "S1" := by simpa [fixtureM, hmmFromTables] using hs
  have h2 : s2 = "S0" ∨ s2 = "S1" := by simpa [fixtureM, hmmFromTables] using hs2
  rcases h1 with h | h <;> rcases h2 with h3 | h3 <;> subst h <;> subst h3 <;>
    norm_num +decide [fixtureM, hmmFromTables, HiddenMarkovModel.transition,
      loadTable, loadTableAux, loadRow, loadRowAux, mapAssign, trF]

theorem fixture_hE (obs : List String) (hA : ∀ t < obs.length, obs.getD t "" = "A" ∨ obs.getD t "" = "B") :
    ∀ s ∈ fixtureM.stateNames, ∀ t < obs.length,
      fixtureM.emission s (obs.getD t "") = .ok (emF s (obs.getD t "")) := by
  intro s hs t ht
  have h1 : s = "S0" ∨ s = "S1" := by simpa [fixtureM, hmmFromTables] using hs
  have h2 := hA t ht
  rcases h1 with h | h <;> rcases h2 with h3 | h3 <;> subst h <;> rw [h3] <;>
    norm_num +decide [fixtureM, hmmFromTables, HiddenMarkovModel.emission,
      loadTable, loadTableAux, loadRow, loadRowAux, mapAssign, emF]

/-- Witness for C1 at the regression fixture and the sequence A A. -/
theorem claim_C1_witness :
    fixtureM.forwardEval ["A", "A"]
      = .ok ((fixtureM.stateNames.map fun i =>
          alphaSpec iniF trF emF fixtureM.stateNames ["A", "A"]
            ((["A", "A"] : List String).length - 1) i).sum) :=
  claim_C1_forward_matches_spec fixtureM ["A", "A"] iniF trF emF
    (by decide) fixture_hI fixture_hT
    (fixture_hE ["A", "A"] (by decide))

/-- Claim C2: under the same success hypotheses, the forward and the
backward evaluations of a non-empty sequence return the same value;
over the exact rationals of the embedding the agreement is exact
equality, which in particular implies agreement within 1e-9 relative
error. -/
theorem claim_C2_forward_eq_backward (m : HiddenMarkovModel) (obs : List String)
    (ini : String → ℚ) (tr em : String → String → ℚ) (hne : obs ≠ [])
    (hI : ∀ s ∈ m.stateNames, m.initState s = .ok (ini s))
    (hT : ∀ s ∈ m.stateNames, ∀ s2 ∈ m.stateNames, m.transition s s2 = .ok (tr s s2))
    (hE : ∀ s ∈ m.stateNames, ∀ t < obs.length,
      m.emission s (obs.getD t "") = .ok (em s (obs.getD t ""))) :
    m.forwardEval obs = m.backwardEval obs :=
  forward_eq_backward_core m obs ini tr em hne hI hT hE

/-- Witness for C2 at the regression fixture and the sequence A B. -/
theorem claim_C2_witness :
    fixtureM.forwardEval ["A", "B"] = fixtureM.backwardEval ["A", "B"] :=
  claim_C2_forward_eq_backward fixtureM ["A", "B"] iniF trF emF
    (by decide) fixture_hI fixture_hT
    (fixture_hE ["A", "B"] (by decide))

/-!
Concrete evaluation lemmas at the regression fixture, staged per time
step to keep terms small.
-/

theorem viterbiHelper_succ (m : HiddenMarkovModel) (obs : List String) (t : Nat)
    (curStt : String) (path : List String) :
    m.viterbiHelper obs (t + 1) curStt path = (do
      let st ← m.stateNames.foldlM
        (fun (st : (ℚ × String) × List String) stt => do
          let pr ← m.viterbiHelper obs t stt st.2
          let tr ← m.transition stt curStt
          pure (viterbiStep st.1 stt (pr.1 * tr), pr.2)) ((0, ""), path)
      let path1 := if st.1.2 ≠ "" then st.2 ++ [st.1.2] else st.2
      let e ← m.emission curStt (obs.getD (t + 1) "")
      pure (st.1.1 * e, path1)) := rfl

theorem fixStates : fixtureM.stateNames = ["S0", "S1"] := rfl

theorem fixT00 : fixtureM.transition "S0" "S0" = .ok (7/10) := by
  norm_num +decide [fixtureM, hmmFromTables, HiddenMarkovModel.transition,
    loadTable, loadTableAux, loadRow, loadRowAux, mapAssign]

theorem fixT01 : fixtureM.transition "S0" "S1" = .ok (3/10) := by
  norm_num +decide [fixtureM, hmmFromTables, HiddenMarkovModel.transition,
    loadTable, loadTableAux, loadRow, loadRowAux, mapAssign]

theorem fixT10 : fixtureM.transition "S1" "S0" = .ok (2/5) := by
  norm_num +decide [fixtureM, hmmFromTables, HiddenMarkovModel.transition,
    loadTable, loadTableAux, loadRow, loadRowAux, mapAssign]

theorem fixT11 : fixtureM.transition "S1" "S1" = .ok (3/5) := by
  norm_num +decide [fixtureM, hmmFromTables, HiddenMarkovModel.transition,
    loadTable, loadTableAux, loadRow, loadRowAux, mapAssign]

theorem fixE0A : fixtureM.emission "S0" "A" = .ok (9/10) := by
  norm_num +decide [fixtureM, hmmFromTables, HiddenMarkovModel.emission,
    loadTable, loadTableAux, loadRow, loadRowAux, mapAssign]

theorem fixE1A : fixtureM.emission "S1" "A" = .ok (1/5) := by
  norm_num +decide [fixtureM, hmmFromTables, HiddenMarkovModel.emission,
    loadTable, loadTableAux, loadRow, loadRowAux, mapAssign]

theorem vh0_S0 (path : List String) :
    fixtureM.viterbiHelper ["A", "A", "A"] 0 "S0" path = .ok (27/50, path) := by
  norm_num +decide [fixtureM, hmmFromTables, HiddenMarkovModel.viterbiHelper,
    HiddenMarkovModel.initEval, HiddenMarkovModel.initState,
    HiddenMarkovModel.emission, loadTable, loadTableAux, loadRow, loadRowAux,
    mapAssign, ok_bind, err_bind, ok_map]

theorem vh0_S1 (path : List String) :
    fixtureM.viterbiHelper ["A", "A", "A"] 0 "S1" path = .ok (2/25, path) := by
  norm_num +decide [fixtureM, hmmFromTables, HiddenMarkovModel.viterbiHelper,
    HiddenMarkovModel.initEval, HiddenMarkovModel.initState,
    HiddenMarkovModel.emission, loadTable, loadTableAux, loadRow, loadRowAux,
    mapAssign, ok_bind, err_bind, ok_map]

theorem vh1_S0 (path : List String) :
    fixtureM.viterbiHelper ["A", "A", "A"] 1 "S0" path
      = .ok (1701/5000, path ++ ["S0"]) := by
  have h1 : (1 : Nat) = 0 + 1 := rfl
  rw [h1, viterbiHelper_succ]
  norm_num +decide [fixStates, vh0_S0, vh0_S1, viterbiStep,
    fixT00, fixT10, fixE0A, List.foldlM_cons, List.foldlM_nil,
    ok_bind, err_bind, ok_map]

theorem vh1_S1 (path : List String) :
    fixtureM.viterbiHelper ["A", "A", "A"] 1 "S1" path
      = .ok (81/2500, path ++ ["S0"]) := by
  have h1 : (1 : Nat) = 0 + 1 := rfl
  rw [h1, viterbiHelper_succ]
  norm_num +decide [fixStates, vh0_S0, vh0_S1, viterbiStep,
    fixT01, fixT11, fixE1A, List.foldlM_cons, List.foldlM_nil,
    ok_bind, err_bind, ok_map]

theorem vh2_S0 (path : List String) :
    fixtureM.viterbiHelper ["A", "A", "A"] 2 "S0" path
      = .ok (107163/500000, path ++ ["S0", "S0", "S0"]) := by
  have h1 : (2 : Nat) = 1 + 1 := rfl
  rw [h1, viterbiHelper_succ]
  norm_num +decide [fixStates, vh1_S0, vh1_S1, viterbiStep,
    fixT00, fixT10, fixE0A, List.foldlM_cons, List.foldlM_nil,
    ok_bind, err_bind, ok_map]

theorem vh2_S1 (path : List String) :
    fixtureM.viterbiHelper ["A", "A", "A"] 2 "S1" path
      = .ok (5103/250000, path ++ ["S0", "S0", "S0"]) := by
  have h1 : (2 : Nat) = 1 + 1 := rfl
  rw [h1, viterbiHelper_succ]
  norm_num +decide [fixStates, vh1_S0, vh1_S1, viterbiStep,
    fixT01, fixT11, fixE1A, List.foldlM_cons, List.foldlM_nil,
    ok_bind, err_bind, ok_map]

/-- Claim C3 (evidence for the code bug): on the fixture model and the
three-step sequence A A A, the source Viterbi produces a path with six
entries, not three: each top-level viterbiHelper call appends its
per-level argmax states for every state into the one shared curPath,
and no backpointer walk or reversal ever happens (the source marks the
reconstruction with a TODO comment, and the header even declares a
(probability, path) pair return type that the implementation does not
have). The claim's required length T = 3 is violated. -/
theorem claim_C3_path_reconstruction_bug :
    fixtureM.viterbiPath ["A", "A", "A"]
      = .ok ["S0", "S0", "S0", "S0", "S0", "S0"] := by
  unfold HiddenMarkovModel.viterbiPath
  rw [fixStates]
  have hlen : (["A", "A", "A"] : List String).length - 1 = 2 := rfl
  rw [hlen]
  simp only [List.foldlM_cons, List.foldlM_nil, vh2_S0, vh2_S1, ok_bind]
  rfl

/-- Claim C5 counterexample: the forward value on the fixture and the
sequence A A is exactly 0.411, which is not approximately 0.5668 (it
differs by 0.1558, far beyond any reading of the 0.5668 figure). -/
theorem claim_C5_counterexample :
    fixtureM.forwardEval ["A", "A"] = .ok (411/1000)
      ∧ ¬(|(411 : ℚ)/1000 - 5668/10000| ≤ 1/100) := by
  constructor
  · norm_num +decide [fixtureM, hmmFromTables, HiddenMarkovModel.forwardEval,
      HiddenMarkovModel.forwardHelper, HiddenMarkovModel.initEval,
      HiddenMarkovModel.initState, HiddenMarkovModel.emission,
      HiddenMarkovModel.transition, loadTable, loadTableAux, loadRow, loadRowAux,
      mapAssign, List.foldlM_cons, List.foldlM_nil, ok_bind, err_bind, ok_map]
  · have hd : (411 : ℚ)/1000 - 5668/10000 = -(1558/10000) := by norm_num
    rw [hd, abs_neg, abs_of_nonneg (by norm_num)]
    norm_num

/-- Claim C5 amended: on the fixture and the sequence A A the forward
evaluation returns exactly 0.411 (the value the spec recurrence gives),
and the decode path is S0 S0, as the claim states. -/
theorem claim_C5_amended :
    fixtureM.forwardEval ["A", "A"] = .ok (411/1000)
      ∧ fixtureM.viterbiPath ["A", "A"] = .ok ["S0", "S0"] := by
  constructor
  · norm_num +decide [fixtureM, hmmFromTables, HiddenMarkovModel.forwardEval,
      HiddenMarkovModel.forwardHelper, HiddenMarkovModel.initEval,
      HiddenMarkovModel.initState, HiddenMarkovModel.emission,
      HiddenMarkovModel.transition, loadTable, loadTableAux, loadRow, loadRowAux,
      mapAssign, List.foldlM_cons, List.foldlM_nil, ok_bind, err_bind, ok_map]
  · norm_num +decide [fixtureM, hmmFromTables, HiddenMarkovModel.viterbiPath,
      HiddenMarkovModel.viterbiHelper, viterbiStep, HiddenMarkovModel.initEval,
      HiddenMarkovModel.initState, HiddenMarkovModel.emission,
      HiddenMarkovModel.transition, loadTable, loadTableAux, loadRow, loadRowAux,
      mapAssign, List.foldlM_cons, List.foldlM_nil, ok_bind, err_bind, ok_map]

/-!
The Viterbi max-selection policy.
-/

theorem selectMax_stays :
    ∀ (l : List (String × ℚ)) (acc : ℚ × String), (∀ p ∈ l, p.2 ≤ acc.1) →
      l.foldl (fun a p => viterbiStep a p.1 p.2) acc = acc := by
  intro l
  induction l with
  | nil => intro acc _; rfl
  | cons x xs ih =>
    intro acc h
    have hx : x.2 ≤ acc.1 := h x (by simp)
    have hstep : viterbiStep acc x.1 x.2 = acc := by
      unfold viterbiStep
      rw [if_neg (not_lt.mpr hx)]
    show xs.foldl _ (viterbiStep acc x.1 x.2) = acc
    rw [hstep]
    exact ih acc (fun p hp => h p (by simp [hp]))

theorem selectMax_picks_first :
    ∀ (l : List (String × ℚ)) (acc : ℚ × String) (v : ℚ) (p0 : String × ℚ),
      acc.1 < v → (∀ p ∈ l, p.2 ≤ v) →
      l.find? (fun p => decide (v ≤ p.2)) = some p0 →
      l.foldl (fun a p => viterbiStep a p.1 p.2) acc = (v, p0.1) := by
  intro l
  induction l with
  | nil => intro acc v p0 _ _ hfind; simp [List.find?] at hfind
  | cons x xs ih =>
    intro acc v p0 hacc hle hfind
    by_cases hx : v ≤ x.2
    · have hxv : x.2 = v := le_antisymm (hle x (by simp)) hx
      have hp0 : p0 = x := by
        rw [List.find?_cons_of_pos] at hfind
        · exact (Option.some_inj.mp hfind).symm
        · simp [hx]
      subst hp0
      show xs.foldl _ (viterbiStep acc p0.1 p0.2) = _
      have hstep : viterbiStep acc p0.1 p0.2 = (v, p0.1) := by
        unfold viterbiStep
        rw [hxv, if_pos hacc]
      rw [hstep]
      exact selectMax_stays xs (v, p0.1) (fun p hp => hle p (by simp [hp]))
    · have hfind2 : xs.find? (fun p => decide (v ≤ p.2)) = some p0 := by
        rw [List.find?_cons_of_neg] at hfind
        · exact hfind
        · simp [hx]
      have hx2 : x.2 < v := not_le.mp hx
      show xs.foldl _ (viterbiStep acc x.1 x.2) = _
      have hlt : (viterbiStep acc x.1 x.2).1 < v := by
        unfold viterbiStep
        by_cases hgt : x.2 > acc.1
        · rw [if_pos hgt]; exact hx2
        · rw [if_neg hgt]; exact hacc
      exact ih _ v p0 hlt (fun p hp => hle p (by simp [hp])) hfind2

/-- Claim C4 counterexample: on a model whose first symbol A has
emission probability 0 in every state, every candidate value in the
t = 1 Viterbi selection is 0, maxStt stays the empty string, and
nothing is appended to the path: the decode path for the sequence A A
is empty, whereas the claim requires the lowest-indexed state s0 to be
selected in exactly this all-zero case. -/
theorem claim_C4_counterexample :
    zeroFixtureM.viterbiPath ["A", "A"] = .ok [] := by
  norm_num +decide [zeroFixtureM, hmmFromTables, HiddenMarkovModel.viterbiPath,
    HiddenMarkovModel.viterbiHelper, viterbiStep, HiddenMarkovModel.initEval,
    HiddenMarkovModel.initState, HiddenMarkovModel.emission,
    HiddenMarkovModel.transition, loadTable, loadTableAux, loadRow, loadRowAux,
    mapAssign, List.foldlM_cons, List.foldlM_nil, ok_bind, err_bind, ok_map]

/-- Claim C4 amended: the selection the viterbiHelper loop performs
over its candidate list (selectMax, folding viterbiStep from
maxProb = 0, maxStt = "") keeps, whenever the maximal candidate value v
is positive, the first entry in iteration order attaining v — in the
fixed state ordering that is the lowest-indexed state, so ties at a
positive maximum are broken deterministically toward the lowest index
and repeated runs of the pure decode function give identical paths.
But when every candidate value is at most 0 — in particular the
all-zero case where every delta(0, i) is 0 — no state is selected: the
result keeps the empty maxStt and the source then appends nothing to
the path, instead of selecting the lowest-indexed state as the claim
says. -/
theorem claim_C4_amended :
    (∀ (l : List (String × ℚ)) (v : ℚ) (p0 : String × ℚ), 0 < v →
        (∀ p ∈ l, p.2 ≤ v) → l.find? (fun p => decide (v ≤ p.2)) = some p0 →
        selectMax l = (v, p0.1))
      ∧ (∀ l : List (String × ℚ), (∀ p ∈ l, p.2 ≤ 0) → selectMax l = (0, "")) := by
  constructor
  · intro l v p0 hv hle hfind
    exact selectMax_picks_first l (0, "") v p0 hv hle hfind
  · intro l h
    exact selectMax_stays l (0, "") h

/-- Witness for the amended C4: an exact positive two-way tie selects
the first (lowest-indexed) state, and an all-zero candidate list
selects nothing. -/
theorem claim_C4_witness :
    selectMax [("s0", 1/2), ("s1", 1/2)] = (1/2, "s0")
      ∧ selectMax [("s0", 0), ("s1", 0)] = (0, "") := by
  constructor
  · exact claim_C4_amended.1 [("s0", 1/2), ("s1", 1/2)] (1/2) ("s0", 1/2)
      (by norm_num)
      (by intro p hp; rcases List.mem_pair.mp hp with h | h <;> rw [h])
      (by norm_num [List.find?])
  · exact claim_C4_amended.2 [("s0", 0), ("s1", 0)]
      (by intro p hp; rcases List.mem_pair.mp hp with h | h <;> rw [h])

/-- Claim C6 counterexample: the constructor accepts a transition
matrix whose first row sums to 0.5 and whose second row holds 1.5 and
-0.5 (outside [0,1]), and an initial vector summing to 0.6, and returns
a full working Model storing those numbers: no MalformedModel failure
exists anywhere in the source, which performs no validation at all. -/
theorem claim_C6_counterexample : badTablesM.transition "s0" "s0" = .ok (1/5) := by
  norm_num +decide [badTablesM, hmmFromTables, HiddenMarkovModel.transition,
    loadTable, loadTableAux, loadRow, loadRowAux, mapAssign]

/-- Claim C6 amended: construction never validates and never fails.
For any dimension-consistent tables with distinct state and symbol
names — with no condition whatsoever on row sums or on the range of
the probabilities — the constructor produces a Model whose transition,
emission and initial lookups return the given table entries verbatim. -/
theorem claim_C6_amended (names outs : List String) (tR eR : List (List ℚ))
    (iR : List ℚ) (hn : names.Nodup) (ho : outs.Nodup) :
    (∀ (i j : Nat) (hi : i < names.length) (hj : j < names.length),
        (hmmFromTables names outs tR eR iR).transition
            (names.get ⟨i, hi⟩) (names.get ⟨j, hj⟩)
          = .ok ((tR.getD i []).getD j 0))
      ∧ (∀ (i k : Nat) (hi : i < names.length) (hk : k < outs.length),
          (hmmFromTables names outs tR eR iR).emission
              (names.get ⟨i, hi⟩) (outs.get ⟨k, hk⟩)
            = .ok ((eR.getD i []).getD k 0))
      ∧ (∀ (i : Nat) (hi : i < names.length),
          (hmmFromTables names outs tR eR iR).initState (names.get ⟨i, hi⟩)
            = .ok (iR.getD i 0)) :=
  ⟨fun i j hi hj => ctor_transition_ok names outs tR eR iR hn i j hi hj,
   fun i k hi hk => ctor_emission_ok names outs tR eR iR hn ho i k hi hk,
   fun i hi => ctor_initState_ok names outs tR eR iR hn i hi⟩

/-- Witness for the amended C6 at the malformed tables: the stored
out-of-range probability 1.5 and the non-normalised initial entry are
returned by the constructed model's lookups. -/
theorem claim_C6_witness :
    badTablesM.transition "s1" "s0" = .ok (15/10)
      ∧ badTablesM.initState "s0" = .ok (3/10) := by
  have h := claim_C6_amended ["s0", "s1"] ["A", "B"]
    [[2/10, 3/10], [15/10, -5/10]] [[1/2, 1/2], [1/2, 1/2]] [3/10, 3/10]
    (by decide) (by decide)
  exact ⟨h.1 1 0 (by decide) (by decide), h.2.2 0 (by decide)⟩

/-- Claim C9: on a constructed model the lookups error exactly on
unknown names: transition(s1, s2) succeeds iff both are state names,
emission(s, o) succeeds iff s is a state name and o a symbol name, and
initState(s) succeeds iff s is a state name (the source checks the
_emissions map, whose key set is the state-name set); on known names
each returns the stored table entry.  All lookups are pure functions of
the model, so no lookup modifies it. -/
theorem claim_C9_lookup_errors (names outs : List String) (tR eR : List (List ℚ))
    (iR : List ℚ) (hn : names.Nodup) (ho : outs.Nodup) :
    (∀ s1 s2, exceptOk ((hmmFromTables names outs tR eR iR).transition s1 s2) = true
        ↔ (s1 ∈ names ∧ s2 ∈ names))
      ∧ (∀ s o, exceptOk ((hmmFromTables names outs tR eR iR).emission s o) = true
          ↔ (s ∈ names ∧ o ∈ outs))
      ∧ (∀ s, exceptOk ((hmmFromTables names outs tR eR iR).initState s) = true
          ↔ s ∈ names)
      ∧ (∀ (i j : Nat) (hi : i < names.length) (hj : j < names.length),
          (hmmFromTables names outs tR eR iR).transition
              (names.get ⟨i, hi⟩) (names.get ⟨j, hj⟩)
            = .ok ((tR.getD i []).getD j 0))
      ∧ (∀ (i k : Nat) (hi : i < names.length) (hk : k < outs.length),
          (hmmFromTables names outs tR eR iR).emission
              (names.get ⟨i, hi⟩) (outs.get ⟨k, hk⟩)
            = .ok ((eR.getD i []).getD k 0))
      ∧ (∀ (i : Nat) (hi : i < names.length),
          (hmmFromTables names outs tR eR iR).initState (names.get ⟨i, hi⟩)
            = .ok (iR.getD i 0)) :=
  ⟨fun s1 s2 => ctor_transition_isOk_iff names outs tR eR iR hn s1 s2,
   fun s o => ctor_emission_isOk_iff names outs tR eR iR hn s o,
   fun s => ctor_initState_isOk_iff names outs tR eR iR hn s,
   fun i j hi hj => ctor_transition_ok names outs tR eR iR hn i j hi hj,
   fun i k hi hk => ctor_emission_ok names outs tR eR iR hn ho i k hi hk,
   fun i hi => ctor_initState_ok names outs tR eR iR hn i hi⟩

/-- Witness for C9 at the fixture tables: a lookup naming the unknown
state X fails, and a known-name lookup returns the stored entry. -/
theorem claim_C9_witness :
    (exceptOk (fixtureM.transition "S0" "X") = true
        ↔ ("S0" ∈ ["S0", "S1"] ∧ "X" ∈ ["S0", "S1"]))
      ∧ fixtureM.initState "S0" = .ok (6/10) := by
  have h := claim_C9_lookup_errors ["S0", "S1"] ["A", "B"]
    [[7/10, 3/10], [4/10, 6/10]] [[9/10, 1/10], [2/10, 8/10]] [6/10, 4/10]
    (by decide) (by decide)
  exact ⟨h.1 "S0" "X", h.2.2.2.2.2 0 (by decide)⟩

/-- Claim C10: eval on an output sequence and a state sequence of
different lengths returns the value 0 (an ok result, not an error),
whatever the model holds: the length test is the first thing the
source does and no probability table is consulted. -/
theorem claim_C10_eval_length_mismatch (m : HiddenMarkovModel)
    (out stt : List String) (h : out.length ≠ stt.length) :
    m.eval out stt = .ok 0 := by
  unfold HiddenMarkovModel.eval
  rw [if_pos h]
  rfl

/-- Witness for C10: one output against two states gives probability
0 without an error. -/
theorem claim_C10_witness : fixtureM.eval ["A"] ["S0", "S1"] = .ok 0 :=
  claim_C10_eval_length_mismatch fixtureM ["A"] ["S0", "S1"] (by decide)

/-!
Non-termination of forward on the empty sequence, and the batch
behaviour of forward.
-/

theorem fuelBind_none (f : ℚ → Option (Except String ℚ)) :
    fuelBind none f = none := rfl

theorem foldl_fuelBind_none {α : Type} (G : α → ℚ → Option (Except String ℚ)) :
    ∀ xs : List α, xs.foldl (fun acc stt => fuelBind acc (G stt)) none = none := by
  intro xs
  induction xs with
  | nil => rfl
  | cons x xs ih => exact ih

/-- With a negative time index — which is what the source passes for an
empty observation sequence — the fuelled forwardHelper never reaches
its base case: it exhausts any amount of fuel. -/
theorem forwardHelperFuel_neg (m : HiddenMarkovModel) (obs : List String)
    (hs : m.stateNames ≠ []) :
    ∀ (fuel : Nat) (t : Int), t < 0 → ∀ s, m.forwardHelperFuel obs fuel t s = none := by
  intro fuel
  induction fuel with
  | zero => intro t _ s; rfl
  | succ fuel ih =>
    intro t ht s
    obtain ⟨x, xs, hxx⟩ := List.exists_cons_of_ne_nil hs
    have ht0 : ¬(t = 0) := by omega
    simp only [HiddenMarkovModel.forwardHelperFuel]
    rw [if_neg ht0, hxx, List.foldl_cons]
    show fuelBind
        (xs.foldl _
          (fuelBind (m.forwardHelperFuel obs fuel (t - 1) x) _)) _ = none
    rw [ih (t - 1) (by omega) x]
    show fuelBind (xs.foldl _ none) _ = none
    rw [foldl_fuelBind_none]
    rfl

/-- The fuelled forward loop body on the empty sequence is none for
every fuel: the source computation never terminates there. -/
theorem forwardEvalFuel_empty (m : HiddenMarkovModel) (hs : m.stateNames ≠ []) :
    ∀ fuel : Nat, m.forwardEvalFuel [] fuel = none := by
  intro fuel
  obtain ⟨x, xs, hxx⟩ := List.exists_cons_of_ne_nil hs
  unfold HiddenMarkovModel.forwardEvalFuel
  rw [hxx, List.foldl_cons]
  have hred : (fuelBind (some (Except.ok 0)) fun s =>
        fuelBind (m.forwardHelperFuel [] fuel ((([] : List String).length : Int) - 1) x)
          fun a => some (Except.ok (s + a)))
      = fuelBind (m.forwardHelperFuel [] fuel ((([] : List String).length : Int) - 1) x)
          (fun a => some (Except.ok (0 + a))) := rfl
  rw [hred, forwardHelperFuel_neg m [] (by rw [hxx]; exact List.cons_ne_nil x xs) fuel
    ((([] : List String).length : Int) - 1) (by norm_num) x]
  exact foldl_fuelBind_none
    (fun stt s =>
      fuelBind (m.forwardHelperFuel [] fuel ((([] : List String).length : Int) - 1) stt)
        fun a => some (Except.ok (s + a))) xs

/-- Claim C7 counterexample: evaluating the empty sequence does not
fail with an EmptySequence error — no such error exists in the source.
The source passes obs.size()-1, i.e. the int -1, as the time index, and
the recursion t, t-1, t-2, ... never reaches the base case t == 0:
after 100 recursion levels the fuelled model is still running (and
forwardEvalFuel_empty proves it runs forever), so the evaluation
produces neither a numeric result nor any error value. -/
theorem claim_C7_counterexample : fixtureM.forwardEvalFuel [] 100 = none :=
  forwardEvalFuel_empty fixtureM (by decide) 100

/-- Claim C7 amended: a sequence of length 0 is not detected: for any
model with at least one state, the forward evaluation of the empty
sequence never terminates (none for every fuel bound), rather than
failing with an EmptySequence error; an unknown symbol does make the
evaluation fail at lookup time, with the runtime error message naming
the symbol ("No such output: C"), which is the source's counterpart of
UnknownSymbol (there is no separate error type, and no trellis exists
in the recursive source to be built beforehand). -/
theorem claim_C7_amended (m : HiddenMarkovModel) (hs : m.stateNames ≠ []) :
    (∀ fuel : Nat, m.forwardEvalFuel [] fuel = none)
      ∧ fixtureM.forwardEval ["A", "C"] = .error "No such output: C" := by
  constructor
  · exact forwardEvalFuel_empty m hs
  · norm_num +decide [fixtureM, hmmFromTables, HiddenMarkovModel.forwardEval,
      HiddenMarkovModel.forwardHelper, HiddenMarkovModel.initEval,
      HiddenMarkovModel.initState, HiddenMarkovModel.emission,
      HiddenMarkovModel.transition, loadTable, loadTableAux, loadRow, loadRowAux,
      mapAssign, List.foldlM_cons, List.foldlM_nil, ok_bind, err_bind, ok_map]

/-- Witness for the amended C7 at the fixture model. -/
theorem claim_C7_witness :
    fixtureM.forwardEvalFuel [] 7 = none
      ∧ fixtureM.forwardEval ["A", "C"] = .error "No such output: C" :=
  ⟨(claim_C7_amended fixtureM (by decide)).1 7,
   (claim_C7_amended fixtureM (by decide)).2⟩

/-- The forward batch loop yields one value per sequence, in input
order, when every sequence succeeds. -/
theorem forward_batch_ok (m : HiddenMarkovModel) (f : List String → ℚ) :
    ∀ (seqs : List (List String)), (∀ s ∈ seqs, m.forwardEval s = .ok (f s)) →
      ∀ acc : List ℚ,
        seqs.foldlM
          (fun ret obs => do
            let s ← m.forwardEval obs
            pure (ret ++ [s])) acc = .ok (acc ++ seqs.map f) := by
  intro seqs
  induction seqs with
  | nil =>
    intro _ acc
    rw [List.foldlM_nil, List.map_nil, List.append_nil]
    rfl
  | cons x xs ih =>
    intro h acc
    rw [List.foldlM_cons, h x (by simp), ok_bind]
    show xs.foldlM _ (acc ++ [f x]) = _
    rw [ih (fun s hs => h s (by simp [hs])) (acc ++ [f x])]
    simp

/-- The first failing sequence aborts the whole forward batch loop
with its error. -/
theorem forward_batch_abort (m : HiddenMarkovModel) (f : List String → ℚ) :
    ∀ (pre : List (List String)), (∀ p ∈ pre, m.forwardEval p = .ok (f p)) →
      ∀ (bad : List String) (e : String), m.forwardEval bad = .error e →
      ∀ (post : List (List String)) (acc : List ℚ),
        (pre ++ bad :: post).foldlM
          (fun ret obs => do
            let s ← m.forwardEval obs
            pure (ret ++ [s])) acc = .error e := by
  intro pre
  induction pre with
  | nil =>
    intro _ bad e hbad post acc
    rw [List.nil_append, List.foldlM_cons, hbad]
    rfl
  | cons x xs ih =>
    intro h bad e hbad post acc
    rw [List.cons_append, List.foldlM_cons, h x (by simp), ok_bind]
    exact ih (fun p hp => h p (by simp [hp])) bad e hbad post (acc ++ [f x])

/-- Claim C8 counterexample: in the batch of three sequences [A],
[A, C], [B], the unknown symbol C in the second sequence makes the
whole forward batch return that single error: the first sequence's
result is discarded and the third sequence is never evaluated, whereas
the claim requires one outcome per input sequence with the other
sequences still producing results. -/
theorem claim_C8_counterexample :
    fixtureM.forward [["A"], ["A", "C"], ["B"]] = .error "No such output: C" := by
  have h1 : fixtureM.forwardEval ["A"] = .ok (31/50) := by
    norm_num +decide [fixtureM, hmmFromTables, HiddenMarkovModel.forwardEval,
      HiddenMarkovModel.forwardHelper, HiddenMarkovModel.initEval,
      HiddenMarkovModel.initState, HiddenMarkovModel.emission,
      HiddenMarkovModel.transition, loadTable, loadTableAux, loadRow, loadRowAux,
      mapAssign, List.foldlM_cons, List.foldlM_nil, ok_bind, err_bind, ok_map]
  have h2 : fixtureM.forwardEval ["A", "C"] = .error "No such output: C" := by
    norm_num +decide [fixtureM, hmmFromTables, HiddenMarkovModel.forwardEval,
      HiddenMarkovModel.forwardHelper, HiddenMarkovModel.initEval,
      HiddenMarkovModel.initState, HiddenMarkovModel.emission,
      HiddenMarkovModel.transition, loadTable, loadTableAux, loadRow, loadRowAux,
      mapAssign, List.foldlM_cons, List.foldlM_nil, ok_bind, err_bind, ok_map]
  unfold HiddenMarkovModel.forward
  exact forward_batch_abort fixtureM (fun _ => 31/50) [["A"]]
    (by
      intro p hp
      have hp2 : p = ["A"] := by simpa using hp
      rw [hp2]; exact h1)
    ["A", "C"] "No such output: C" h2 [["B"]] []

/-- Claim C8 amended: the batch loop produces one result per input
sequence in input order only when every sequence succeeds; the first
sequence whose evaluation throws aborts the whole batch, which returns
that error alone — the source has no per-sequence error isolation. -/
theorem claim_C8_amended (m : HiddenMarkovModel) (f : List String → ℚ) :
    (∀ seqs : List (List String), (∀ s ∈ seqs, m.forwardEval s = .ok (f s)) →
        m.forward seqs = .ok (seqs.map f))
      ∧ (∀ (pre post : List (List String)) (bad : List String) (e : String),
          (∀ p ∈ pre, m.forwardEval p = .ok (f p)) →
          m.forwardEval bad = .error e →
          m.forward (pre ++ bad :: post) = .error e) := by
  constructor
  · intro seqs h
    have := forward_batch_ok m f seqs h []
    rw [List.nil_append] at this
    exact this
  · intro pre post bad e hpre hbad
    exact forward_batch_abort m f pre hpre bad e hbad post []

/-- Witness for the amended C8: a batch of two valid sequences gives
two results in input order. -/
theorem claim_C8_witness :
    fixtureM.forward [["A"], ["B"]] = .ok [31/50, 19/50] := by
  have h1 : fixtureM.forwardEval ["A"] = .ok (31/50) := by
    norm_num +decide [fixtureM, hmmFromTables, HiddenMarkovModel.forwardEval,
      HiddenMarkovModel.forwardHelper, HiddenMarkovModel.initEval,
      HiddenMarkovModel.initState, HiddenMarkovModel.emission,
      HiddenMarkovModel.transition, loadTable, loadTableAux, loadRow, loadRowAux,
      mapAssign, List.foldlM_cons, List.foldlM_nil, ok_bind, err_bind, ok_map]
  have h2 : fixtureM.forwardEval ["B"] = .ok (19/50) := by
    norm_num +decide [fixtureM, hmmFromTables, HiddenMarkovModel.forwardEval,
      HiddenMarkovModel.forwardHelper, HiddenMarkovModel.initEval,
      HiddenMarkovModel.initState, HiddenMarkovModel.emission,
      HiddenMarkovModel.transition, loadTable, loadTableAux, loadRow, loadRowAux,
      mapAssign, List.foldlM_cons, List.foldlM_nil, ok_bind, err_bind, ok_map]
  have h := (claim_C8_amended fixtureM
    (fun s => if s = ["A"] then 31/50 else 19/50)).1 [["A"], ["B"]]
    (by
      intro s hs
      rcases List.mem_pair.mp hs with hh | hh <;> rw [hh] <;> simp [h1, h2])
  simpa using h
